import Mathlib

/-!
Verification of the holotree library core of `rcc` (`htfs/library.go`),
as a shallow embedding in Lean.

Conventions of the embedding:
* Go integers (`uint64`) become `Nat`; no overflow is relevant here since
  the counters only ever increase by one per processed file.
* The `float64` arithmetic of `stats.Dirtyness` is rendered over `ℚ`:
  the Go code first performs the *integer* division `(1000*dirty)/total`
  and only then converts to floating point and divides by `10.0`; the
  rational rendering keeps that integer division exact.
* Go code that can panic (integer division by zero) is embedded with an
  `Option` result; code returning `error` is embedded with `Except`.
* Filesystem and external-package effects (`pathlib`, `NewRoot`,
  `LoadFrom`, `Treetop` visitors, locking) are abstracted as explicit
  environment records holding the success/failure outcome of each call;
  the control flow of `library.go` is translated faithfully over those
  outcomes.
-/

namespace Rcc

/-! ## `stats` (library.go lines 30-70)

The mutex of the Go struct only guards concurrent access and has no
effect on the sequential values; it is dropped. -/

structure stats where
  total : Nat
  dirty : Nat
  links : Nat
  duplicate : Nat
deriving Repr, DecidableEq

/-- Embeds `stats.Dirtyness` (library.go 38-44) for `total ≠ 0`:
`dirtyness := (1000 * it.dirty) / it.total` is Go *integer* division,
then `float64(dirtyness) / 10.0`, rendered exactly over `ℚ`. -/
def stats.Dirtyness (it : stats) : ℚ :=
  ((1000 * it.dirty) / it.total : ℕ) / 10

/-- Embeds `stats.Dirtyness` including its failure mode: when
`it.total = 0` the Go expression `(1000 * it.dirty) / it.total` is an
integer division by zero, which panics (no value is returned); that
panic is embedded as `none`. -/
def stats.DirtynessOpt (it : stats) : Option ℚ :=
  if it.total = 0 then none else some it.Dirtyness

/-- Embeds `stats.Duplicate` (library.go 46-52). -/
def stats.Duplicate (it : stats) : stats :=
  { it with total := it.total + 1, duplicate := it.duplicate + 1 }

/-- Embeds `stats.Link` (library.go 54-60). -/
def stats.Link (it : stats) : stats :=
  { it with total := it.total + 1, links := it.links + 1 }

/-- Embeds `stats.Dirty` (library.go 62-70). -/
def stats.Dirty (it : stats) (dirty : Bool) : stats :=
  { it with total := it.total + 1, dirty := if dirty then it.dirty + 1 else it.dirty }

/-! ## Blueprint queries (library.go lines 295-329)

`queryBlueprint` touches the filesystem through `pathlib.IsFile`,
`NewRoot`, `LoadFrom` and the `CatalogCheck` traversal; the outcome of
each of those calls is abstracted into a `QueryEnv` record describing
one consistent filesystem snapshot for the duration of the call. -/

structure QueryEnv where
  /-- Result of `pathlib.IsFile(catalog)`: the catalog file exists. -/
  catalogIsFile : Bool
  /-- Whether `NewRoot(tempdir)` succeeded. -/
  tempRootOk : Bool
  /-- Whether `shadow.LoadFrom(catalog)` succeeded (deserialization). -/
  loadOk : Bool
  /-- Whether `shadow.Treetop(CatalogCheck(it, shadow))` succeeded. -/
  checkOk : Bool
deriving Repr, DecidableEq

/-- Embeds `hololib.queryBlueprint` (library.go 305-329).  Every failure
returns `false`; the final line of the Go function re-checks
`pathlib.IsFile(catalog)`, which inside one snapshot is the same value
as the first check. -/
def queryBlueprint (e : QueryEnv) : Bool :=
  if !e.catalogIsFile then false
  else if !e.tempRootOk then false
  else if !e.loadOk then false
  else if !e.checkOk then false
  else e.catalogIsFile

/-- Embeds the `queryCache map[string]bool` lookup of the `hololib`
struct (library.go 98-102) as an association list. -/
def lookupCache : List (String × Bool) → String → Option Bool
  | [], _ => none
  | (k, v) :: rest, key => if k = key then some v else lookupCache rest key

/-- Embeds `hololib.HasBlueprint` (library.go 295-303).
`hash` stands for `common.BlueprintHash`, `disk` for the filesystem
snapshot consulted by `queryBlueprint` for a given key; the updated
cache is returned alongside the boolean (in Go the map is mutated). -/
def HasBlueprint (hash : List Nat → String) (disk : String → QueryEnv)
    (cache : List (String × Bool)) (blueprint : List Nat) :
    Bool × List (String × Bool) :=
  let key := hash blueprint
  match lookupCache cache key with
  | some found => (found, cache)
  | none =>
    let found := queryBlueprint (disk key)
    (found, (key, found) :: cache)

/-! ## Zip export (library.go lines 145-170 and 190-239)

A catalog is abstracted to its name, whether `fs.LoadFrom` succeeds for
it, and the archive-relative paths of the library objects its tree
references (the paths the `ZipIgnore`/`ZipRoot` treetop visitors hand
to the zip writer).  The zip writer state is the `seen` set plus the
ordered list of paths actually written into the archive.  File IO on
the archive and on the objects themselves is modelled as succeeding:
the claims under scrutiny concern load failures and deduplication. -/

structure Catalog where
  name : String
  loadable : Bool
  refs : List String
deriving Repr, DecidableEq

structure zipseen where
  seen : List String
  entries : List String
deriving Repr, DecidableEq

/-- Embeds `zipseen.Ignore` (library.go 150-152): mark as seen, write
nothing. -/
def zipseen.Ignore (it : zipseen) (relativepath : String) : zipseen :=
  { it with seen := relativepath :: it.seen }

/-- Embeds `zipseen.Add` (library.go 154-170): return without writing
when the path was already seen, otherwise mark it seen and write it. -/
def zipseen.Add (it : zipseen) (relativepath : String) : zipseen :=
  if relativepath ∈ it.seen then it
  else { seen := relativepath :: it.seen, entries := it.entries ++ [relativepath] }

/-- Embeds `fs.Treetop(ZipIgnore(it, fs, zipper))` on a loaded catalog:
every referenced object path is marked seen. -/
def ZipIgnore (z : zipseen) (c : Catalog) : zipseen :=
  c.refs.foldl zipseen.Ignore z

/-- Embeds `fs.Treetop(ZipRoot(it, fs, zipper))` on a loaded catalog:
every referenced object path is handed to `zipseen.Add`. -/
def ZipRoot (z : zipseen) (c : Catalog) : zipseen :=
  c.refs.foldl zipseen.Add z

/-- The archive-relative path of the catalog file itself:
`filepath.Rel(common.HololibLocation(), catalog)` for a file in the
`catalog` subdirectory of the hololib root (library.go 230). -/
def catalogRelative (c : Catalog) : String :=
  "catalog/" ++ c.name

inductive ExportError where
  /-- Raised by `fail.On` at library.go 226: a to-export catalog failed to load. -/
  | loadFailure (name : String)
  /-- Raised by `fail.On` on a false `exported` flag at library.go 237. -/
  | nothingToExport
deriving Repr, DecidableEq

/-- Embeds the first loop of `hololib.Export` (library.go 208-218):
known catalogs that fail to load are skipped (`continue`), loaded ones
have all referenced object paths marked as seen. -/
def exportKnown (z : zipseen) (known : List Catalog) : zipseen :=
  known.foldl (fun z c => if c.loadable then ZipIgnore z c else z) z

/-- Embeds the second loop of `hololib.Export` (library.go 220-236): a
to-export catalog that fails to load aborts with an error; a loaded one
has its referenced objects zipped, then the catalog file itself added,
and sets the `exported` flag. -/
def exportLoop (z : zipseen) (exported : Bool) :
    List Catalog → Except ExportError (zipseen × Bool)
  | [] => .ok (z, exported)
  | c :: rest =>
    if c.loadable then
      exportLoop ((ZipRoot z c).Add (catalogRelative c)) true rest
    else
      .error (.loadFailure c.name)

/-- Embeds `hololib.Export` (library.go 190-239), returning the list of
archive entry paths on success. -/
def Export (catalogs known : List Catalog) : Except ExportError (List String) :=
  match exportLoop (exportKnown ⟨[], []⟩ known) false catalogs with
  | .error e => .error e
  | .ok (z, exported) => if exported then .ok z.entries else .error .nothingToExport

/-! ## Restore (library.go lines 380-448)

`RestoreTo` is embedded as a function from the outcomes of its external
calls to the returned result paired with the ordered trace of the
operations it performed.  Events record each attempted operation; an
event is emitted exactly when the corresponding Go call is reached. -/

inductive REvent where
  /-- Call `pathlib.Locker(lockfile, timeoutMs, ...)` (library.go 396). -/
  | lockAttempt (timeoutMs : Nat)
  /-- Call of journal Post for space-used (library.go 400). -/
  | journalPost
  /-- Call `shadow.Treetop(DigestRecorder(currentstate))` (library.go 414). -/
  | digestScan
  /-- Call `fs.Relocate(targetdir)` (library.go 419). -/
  | relocate
  /-- Call `fs.Treetop(MakeBranches)` (library.go 422). -/
  | makeBranches
  /-- Call `fs.AllDirs(RestoreDirectory(...))` (library.go 427). -/
  | restoreDirs
  /-- Call `fs.SaveAs(metafile)` (library.go 435): the meta write. -/
  | saveMeta
  /-- Call `pathlib.TouchWhen(catalog, ...)` (library.go 437). -/
  | touchCatalog
  /-- Call `touchUsedHash(key)` (library.go 446). -/
  | touchUsed
deriving Repr, DecidableEq

structure RestoreEnv where
  /-- Whether `NewRoot(it.Stage())` succeeded (library.go 388). -/
  stageRootOk : Bool
  /-- Whether `fs.LoadFrom(catalog)` succeeded (library.go 390). -/
  catalogLoadOk : Bool
  /-- the lock on `<targetdir>.lck` was obtained in time (library.go 396). -/
  lockOk : Bool
  /-- blueprint key found in the target's meta-catalog, `none` when
  `NewRoot(targetdir)` or `shadow.LoadFrom(metafile)` failed
  (library.go 403-405). -/
  shadowMeta : Option String
  /-- Whether `fs.Relocate(targetdir)` succeeded (library.go 419). -/
  relocateOk : Bool
  /-- Whether `fs.Treetop(MakeBranches)` succeeded (library.go 422). -/
  makeBranchesOk : Bool
  /-- Whether `fs.AllDirs(RestoreDirectory(...))` succeeded (library.go 427). -/
  restoreDirsOk : Bool
  /-- Whether `fs.SaveAs(metafile)` succeeded (library.go 435). -/
  saveMetaOk : Bool
deriving Repr, DecidableEq

/-- Embeds the `%q` formatting of a plain hexadecimal key. -/
def quoteKey (s : String) : String :=
  "\"" ++ s ++ "\""

/-- Embeds the operating-mode classification of `hololib.RestoreTo`
(library.go 402-418): `mode` starts as new-space, and when the target's
meta-catalog loaded, it becomes cleaned-up-space on equal blueprint
keys and otherwise the (misspelled, sic) "coverted space" string. -/
def modeFor (shadowBlueprint : Option String) (key : String) : String :=
  match shadowBlueprint with
  | none => "new space for " ++ quoteKey key
  | some bp =>
    if key = bp then "cleaned up space for " ++ quoteKey key
    else "coverted space from " ++ quoteKey bp ++ " to " ++ quoteKey key

/-- The part of `hololib.RestoreTo` after the lock was obtained
(library.go 400-447). -/
def restorePostLock (env : RestoreEnv) (targetdir : String) :
    Except String String × List REvent :=
  let scanEvents : List REvent :=
    match env.shadowMeta with
    | some _ => [.digestScan]
    | none => []
  let pre : List REvent := [.lockAttempt 30000, .journalPost] ++ scanEvents
  if env.relocateOk then
    if env.makeBranchesOk then
      if env.restoreDirsOk then
        if env.saveMetaOk then
          (.ok targetdir,
            pre ++ [.relocate, .makeBranches, .restoreDirs, .saveMeta,
                    .touchCatalog, .touchUsed])
        else
          (.error ("Failed to save metafile " ++ targetdir ++ ".meta"),
            pre ++ [.relocate, .makeBranches, .restoreDirs, .saveMeta])
      else
        (.error "Failed to restore directories",
          pre ++ [.relocate, .makeBranches, .restoreDirs])
    else
      (.error "Failed to make branches", pre ++ [.relocate, .makeBranches])
  else
    (.error ("Failed to relocate " ++ targetdir), pre ++ [.relocate])

/-- Embeds `hololib.RestoreTo` (library.go 380-448): early failures
before the lock perform nothing on the target; the lock is requested
with the literal timeout `30000` milliseconds; afterwards the restore
steps run in order, each `fail.On` aborting with an error. -/
def RestoreTo (env : RestoreEnv) (targetdir : String) :
    Except String String × List REvent :=
  if env.stageRootOk then
    if env.catalogLoadOk then
      if env.lockOk then
        restorePostLock env targetdir
      else
        (.error ("Could not get lock for " ++ targetdir ++ ". Quiting."),
          [.lockAttempt 30000])
    else (.error "Failed to load catalog", [])
  else (.error "Failed to create stage", [])

/-! ## `TargetDir` (library.go lines 341-369) -/

/-- Embeds `ControllerSpaceName` (library.go 341-345); `textualSip`
stands for the composition `common.Textual(common.Sipit(x), n)`. -/
def ControllerSpaceName (userHomeIdentity : String)
    (textualSip : List Nat → Nat → String) (client tag : List Nat) : String :=
  userHomeIdentity ++ "_" ++ textualSip client 7 ++ "_" ++ textualSip tag 8

structure TargetEnv where
  /-- Whether `NewRoot(it.Stage())` succeeded (library.go 361). -/
  stageRootOk : Bool
  /-- Whether `fs.LoadFrom(catalog)` succeeded (library.go 364). -/
  loadOk : Bool
  /-- Value of `common.HolotreeLocation()`. -/
  holotreeLocation : String
  /-- Value of `fs.HolotreeBase()` of the successfully loaded catalog. -/
  holotreeBase : String
deriving Repr, DecidableEq

/-- Embeds `filepath.Join` for the two-component joins used here. -/
def pathJoin (a b : String) : String :=
  a ++ "/" ++ b

/-- Embeds `hololib.TargetDir` (library.go 357-369): a failing
`NewRoot` aborts with an error; a failing catalog load returns the
holotree-location path with a nil error; success returns the path
under the catalog's holotree base. -/
def TargetDir (env : TargetEnv) (name : String) : Except String String :=
  if env.stageRootOk then
    if env.loadOk then .ok (pathJoin env.holotreeBase name)
    else .ok (pathJoin env.holotreeLocation name)
  else .error "Failed to create stage"

/-- Whether an embedded Go call returned a non-nil error. -/
def isError : Except String String → Bool
  | .error _ => true
  | .ok _ => false

/-! ## Invariants of the zip writer state -/

/-- Path `p` was marked seen without having been written. -/
def AbsentIn (z : zipseen) (p : String) : Prop :=
  p ∈ z.seen ∧ p ∉ z.entries

/-- Path `p` has not been seen nor written yet. -/
def FreshIn (z : zipseen) (p : String) : Prop :=
  p ∉ z.seen ∧ p ∉ z.entries

/-- Path `p` was written exactly once (and is therefore seen). -/
def DoneIn (z : zipseen) (p : String) : Prop :=
  p ∈ z.seen ∧ z.entries.count p = 1

lemma absent_Ignore {z : zipseen} {p : String} (h : AbsentIn z p) (q : String) :
    AbsentIn (z.Ignore q) p := by
  exact ⟨List.mem_cons_of_mem _ h.1, h.2⟩

lemma absent_Add {z : zipseen} {p : String} (h : AbsentIn z p) (q : String) :
    AbsentIn (z.Add q) p := by
  unfold zipseen.Add
  split
  · exact h
  · refine ⟨List.mem_cons_of_mem _ h.1, ?_⟩
    intro hmem
    rcases List.mem_append.mp hmem with hl | hr
    · exact h.2 hl
    · rename_i hq
      exact hq (List.mem_singleton.mp hr ▸ h.1)

lemma done_Add {z : zipseen} {p : String} (h : DoneIn z p) (q : String) :
    DoneIn (z.Add q) p := by
  unfold zipseen.Add
  split
  · exact h
  · rename_i hq
    refine ⟨List.mem_cons_of_mem _ h.1, ?_⟩
    have hne : q ≠ p := fun e => hq (e ▸ h.1)
    have h0 : List.count p [q] = 0 :=
      List.count_eq_zero.mpr (fun hm => hne (List.mem_singleton.mp hm).symm)
    show List.count p (z.entries ++ [q]) = 1
    rw [List.count_append, h0, h.2]

lemma fresh_Add_ne {z : zipseen} {p q : String} (h : FreshIn z p) (hq : q ≠ p) :
    FreshIn (z.Add q) p := by
  unfold zipseen.Add
  split
  · exact h
  · refine ⟨?_, ?_⟩
    · intro hmem
      rcases List.mem_cons.mp hmem with he | hm
      · exact hq he.symm
      · exact h.1 hm
    · intro hmem
      rcases List.mem_append.mp hmem with hl | hr
      · exact h.2 hl
      · exact hq (List.mem_singleton.mp hr).symm

lemma fresh_Add_self {z : zipseen} {p : String} (h : FreshIn z p) :
    DoneIn (z.Add p) p := by
  unfold zipseen.Add
  rw [if_neg h.1]
  refine ⟨List.mem_cons_self _ _, ?_⟩
  have h0 : z.entries.count p = 0 := List.count_eq_zero.mpr h.2
  simp [List.count_append, h0]

lemma foldl_Add_preserves (P : zipseen → Prop)
    (hstep : ∀ z q, P z → P (z.Add q)) :
    ∀ (l : List String) (z : zipseen), P z → P (l.foldl zipseen.Add z)
  | [], _, h => h
  | q :: rest, z, h => foldl_Add_preserves P hstep rest (z.Add q) (hstep z q h)

lemma foldl_Add_done_of_mem :
    ∀ (l : List String) (z : zipseen) (p : String),
      FreshIn z p → p ∈ l → DoneIn (l.foldl zipseen.Add z) p := by
  intro l
  induction l with
  | nil => intro z p _ hm; cases hm
  | cons q rest ih =>
    intro z p hf hm
    rw [List.foldl_cons]
    by_cases hq : q = p
    · subst hq
      exact foldl_Add_preserves (fun w => DoneIn w q) (fun w r h => done_Add h r)
        rest (z.Add q) (fresh_Add_self hf)
    · have hp : p ∈ rest := by
        rcases List.mem_cons.mp hm with he | hr
        · exact absurd he.symm hq
        · exact hr
      exact ih (z.Add q) p (fresh_Add_ne hf hq) hp

lemma foldl_Add_fresh_of_not_mem :
    ∀ (l : List String) (z : zipseen) (p : String),
      FreshIn z p → p ∉ l → FreshIn (l.foldl zipseen.Add z) p := by
  intro l
  induction l with
  | nil => intro z p hf _; exact hf
  | cons q rest ih =>
    intro z p hf hm
    have hq : q ≠ p := fun e => hm (e ▸ List.mem_cons_self _ _)
    have hr : p ∉ rest := fun hrr => hm (List.mem_cons_of_mem _ hrr)
    exact ih (z.Add q) p (fresh_Add_ne hf hq) hr

lemma foldl_Ignore_entries :
    ∀ (l : List String) (z : zipseen), (l.foldl zipseen.Ignore z).entries = z.entries
  | [], _ => rfl
  | _ :: rest, _ => foldl_Ignore_entries rest _

lemma mem_foldl_Ignore_seen :
    ∀ (l : List String) (z : zipseen) (p : String),
      p ∈ (l.foldl zipseen.Ignore z).seen ↔ p ∈ l ∨ p ∈ z.seen := by
  intro l
  induction l with
  | nil => intro z p; simp
  | cons q rest ih =>
    intro z p
    rw [List.foldl_cons, ih]
    unfold zipseen.Ignore
    simp [List.mem_cons]
    tauto

lemma exportKnown_entries :
    ∀ (known : List Catalog) (z : zipseen), (exportKnown z known).entries = z.entries := by
  intro known
  induction known with
  | nil => intro z; rfl
  | cons c rest ih =>
    intro z
    unfold exportKnown at *
    rw [List.foldl_cons, ih]
    by_cases hc : c.loadable
    · simp [hc, ZipIgnore, foldl_Ignore_entries]
    · simp [hc]

lemma mem_ZipIgnore_seen (z : zipseen) (c : Catalog) (p : String) :
    p ∈ (ZipIgnore z c).seen ↔ p ∈ c.refs ∨ p ∈ z.seen :=
  mem_foldl_Ignore_seen c.refs z p

lemma mem_exportKnown_seen :
    ∀ (known : List Catalog) (z : zipseen) (p : String),
      p ∈ (exportKnown z known).seen ↔
        (∃ c ∈ known, c.loadable = true ∧ p ∈ c.refs) ∨ p ∈ z.seen := by
  intro known
  induction known with
  | nil => intro z p; simp [exportKnown]
  | cons c rest ih =>
    intro z p
    unfold exportKnown at *
    rw [List.foldl_cons, ih]
    by_cases hc : c.loadable
    · rw [if_pos hc, mem_ZipIgnore_seen]
      constructor
      · rintro (⟨d, hd, hl, hr⟩ | hp | hz)
        · exact Or.inl ⟨d, List.mem_cons_of_mem _ hd, hl, hr⟩
        · exact Or.inl ⟨c, List.mem_cons_self _ _, hc, hp⟩
        · exact Or.inr hz
      · rintro (⟨d, hd, hl, hr⟩ | hz)
        · rcases List.mem_cons.mp hd with he | hd1
          · subst he
            exact Or.inr (Or.inl hr)
          · exact Or.inl ⟨d, hd1, hl, hr⟩
        · exact Or.inr (Or.inr hz)
    · rw [if_neg hc]
      constructor
      · rintro (⟨d, hd, hl, hr⟩ | hz)
        · exact Or.inl ⟨d, List.mem_cons_of_mem _ hd, hl, hr⟩
        · exact Or.inr hz
      · rintro (⟨d, hd, hl, hr⟩ | hz)
        · rcases List.mem_cons.mp hd with he | hd1
          · subst he
            exact absurd hl hc
          · exact Or.inl ⟨d, hd1, hl, hr⟩
        · exact Or.inr hz

lemma exportLoop_ok_preserves (P : zipseen → Prop)
    (hAdd : ∀ z q, P z → P (z.Add q)) :
    ∀ (cs : List Catalog) (z : zipseen) (ex : Bool) (z' : zipseen) (ex' : Bool),
      exportLoop z ex cs = .ok (z', ex') → P z → P z' := by
  intro cs
  induction cs with
  | nil =>
    intro z ex z' ex' h hp
    simp only [exportLoop] at h
    cases h
    exact hp
  | cons c rest ih =>
    intro z ex z' ex' h hp
    simp only [exportLoop] at h
    by_cases hc : c.loadable
    · rw [if_pos hc] at h
      refine ih _ _ _ _ h ?_
      exact hAdd _ _ (foldl_Add_preserves P hAdd c.refs z hp)
    · rw [if_neg hc] at h
      cases h

lemma exportLoop_ok_done :
    ∀ (cs : List Catalog) (z : zipseen) (ex : Bool) (z' : zipseen) (ex' : Bool) (p : String),
      exportLoop z ex cs = .ok (z', ex') →
      FreshIn z p → (∃ c ∈ cs, p ∈ c.refs) →
      (∀ c ∈ cs, p ≠ catalogRelative c) → DoneIn z' p := by
  intro cs
  induction cs with
  | nil =>
    intro z ex z' ex' p _ _ hex _
    rcases hex with ⟨c, hc, _⟩
    cases hc
  | cons c rest ih =>
    intro z ex z' ex' p h hf hex hne
    simp only [exportLoop] at h
    by_cases hc : c.loadable
    · rw [if_pos hc] at h
      by_cases hp : p ∈ c.refs
      · have hd1 : DoneIn (ZipRoot z c) p := foldl_Add_done_of_mem c.refs z p hf hp
        have hd2 : DoneIn ((ZipRoot z c).Add (catalogRelative c)) p := done_Add hd1 _
        exact exportLoop_ok_preserves (fun w => DoneIn w p) (fun w r hh => done_Add hh r)
          rest _ _ _ _ h hd2
      · have hf1 : FreshIn (ZipRoot z c) p := foldl_Add_fresh_of_not_mem c.refs z p hf hp
        have hne1 : catalogRelative c ≠ p :=
          fun e => (hne c (List.mem_cons_self _ _)) e.symm
        have hf2 : FreshIn ((ZipRoot z c).Add (catalogRelative c)) p :=
          fresh_Add_ne hf1 hne1
        have hex1 : ∃ d ∈ rest, p ∈ d.refs := by
          rcases hex with ⟨d, hd, hr⟩
          rcases List.mem_cons.mp hd with he | hd1
          · exact absurd (he ▸ hr) hp
          · exact ⟨d, hd1, hr⟩
        exact ih _ _ _ _ p h hf2 hex1 (fun d hd => hne d (List.mem_cons_of_mem _ hd))
    · rw [if_neg hc] at h
      cases h

lemma exportLoop_true :
    ∀ (cs : List Catalog) (z : zipseen) (z' : zipseen) (b : Bool),
      exportLoop z true cs = .ok (z', b) → b = true := by
  intro cs
  induction cs with
  | nil =>
    intro z z' b h
    simp only [exportLoop] at h
    cases h
    rfl
  | cons c rest ih =>
    intro z z' b h
    simp only [exportLoop] at h
    by_cases hc : c.loadable
    · rw [if_pos hc] at h
      exact ih _ _ _ h
    · rw [if_neg hc] at h
      cases h

lemma exportLoop_ok_of_all :
    ∀ (cs : List Catalog) (z : zipseen) (ex : Bool),
      (∀ c ∈ cs, c.loadable = true) →
      ∃ out, exportLoop z ex cs = .ok out := by
  intro cs
  induction cs with
  | nil => intro z ex _; exact ⟨(z, ex), rfl⟩
  | cons c rest ih =>
    intro z ex hall
    have hc : c.loadable = true := hall c (List.mem_cons_self _ _)
    rcases ih ((ZipRoot z c).Add (catalogRelative c)) true
        (fun d hd => hall d (List.mem_cons_of_mem _ hd)) with ⟨out, hout⟩
    refine ⟨out, ?_⟩
    simp only [exportLoop, hc, if_pos]
    exact hout

lemma exportLoop_error_of_exists :
    ∀ (cs : List Catalog) (z : zipseen) (ex : Bool),
      (∃ c ∈ cs, c.loadable = false) →
      ∃ n, exportLoop z ex cs = .error (.loadFailure n) := by
  intro cs
  induction cs with
  | nil =>
    intro z ex hex
    rcases hex with ⟨c, hc, _⟩
    cases hc
  | cons c rest ih =>
    intro z ex hex
    by_cases hc : c.loadable
    · have hex1 : ∃ d ∈ rest, d.loadable = false := by
        rcases hex with ⟨d, hd, hl⟩
        rcases List.mem_cons.mp hd with he | hd1
        · subst he
          rw [hl] at hc
          cases hc
        · exact ⟨d, hd1, hl⟩
      rcases ih ((ZipRoot z c).Add (catalogRelative c)) true hex1 with ⟨n, hn⟩
      refine ⟨n, ?_⟩
      simp only [exportLoop, hc, if_pos]
      exact hn
    · refine ⟨c.name, ?_⟩
      simp only [exportLoop, hc]
      simp

lemma exportLoop_never_nothing :
    ∀ (cs : List Catalog) (z : zipseen) (ex : Bool),
      exportLoop z ex cs ≠ .error .nothingToExport := by
  intro cs
  induction cs with
  | nil => intro z ex h; cases h
  | cons c rest ih =>
    intro z ex h
    simp only [exportLoop] at h
    by_cases hc : c.loadable
    · rw [if_pos hc] at h
      exact ih _ _ h
    · rw [if_neg hc] at h
      cases h

lemma Export_ok_inv :
    ∀ (toExport known : List Catalog) (entries : List String),
      Export toExport known = .ok entries →
      ∃ z : zipseen,
        exportLoop (exportKnown ⟨[], []⟩ known) false toExport = .ok (z, true)
          ∧ entries = z.entries := by
  intro toExport known entries h
  unfold Export at h
  cases he : exportLoop (exportKnown ⟨[], []⟩ known) false toExport with
  | error e =>
    rw [he] at h
    cases h
  | ok pair =>
    obtain ⟨z, ex⟩ := pair
    rw [he] at h
    cases ex with
    | false => simp at h
    | true =>
      simp at h
      exact ⟨z, rfl, h.symm⟩

lemma exportKnown_filter :
    ∀ (known : List Catalog) (z : zipseen),
      exportKnown z (known.filter fun c => c.loadable) = exportKnown z known := by
  intro known
  induction known with
  | nil => intro z; rfl
  | cons c rest ih =>
    intro z
    unfold exportKnown at *
    by_cases hc : c.loadable = true
    · rw [List.filter_cons_of_pos hc, List.foldl_cons, List.foldl_cons, if_pos hc]
      exact ih _
    · rw [List.filter_cons_of_neg hc, List.foldl_cons, if_neg hc]
      exact ih z

/-! ## Claim theorems -/

/-- C6: for every stats record with `total > 0`, `Dirtyness()` returns
`dirty / total` expressed as a percentage with one decimal digit: the
returned value is an integer number of tenths, bounded above by the
exact percentage `100 * dirty / total` and within one tenth below it
(the integer division truncates to one decimal). -/
theorem dirtyness_percentage_one_decimal (s : stats) (h : 0 < s.total) :
    (∃ n : ℕ, s.Dirtyness = (n : ℚ) / 10) ∧
    s.Dirtyness ≤ 100 * (s.dirty : ℚ) / (s.total : ℚ) ∧
    100 * (s.dirty : ℚ) / (s.total : ℚ) < s.Dirtyness + 1 / 10 := by
  have key : (s.total : ℚ) * (((1000 * s.dirty) / s.total : ℕ) : ℚ)
      + (((1000 * s.dirty) % s.total : ℕ) : ℚ) = 1000 * (s.dirty : ℚ) := by
    exact_mod_cast Nat.div_add_mod (1000 * s.dirty) s.total
  have hr : (((1000 * s.dirty) % s.total : ℕ) : ℚ) < (s.total : ℚ) := by
    exact_mod_cast Nat.mod_lt _ h
  have hr0 : (0 : ℚ) ≤ (((1000 * s.dirty) % s.total : ℕ) : ℚ) := by positivity
  have ht : (0 : ℚ) < (s.total : ℚ) := by exact_mod_cast h
  refine ⟨⟨(1000 * s.dirty) / s.total, rfl⟩, ?_, ?_⟩
  · unfold stats.Dirtyness
    rw [div_le_div_iff₀ (by norm_num) ht]
    nlinarith [key, hr0]
  · unfold stats.Dirtyness
    rw [div_add_div_same, div_lt_div_iff₀ ht (by norm_num)]
    nlinarith [key, hr]

theorem dirtyness_percentage_one_decimal_witness :
    0 < (stats.mk 3 1 0 0).total ∧
    ((∃ n : ℕ, (stats.mk 3 1 0 0).Dirtyness = (n : ℚ) / 10) ∧
      (stats.mk 3 1 0 0).Dirtyness
        ≤ 100 * ((stats.mk 3 1 0 0).dirty : ℚ) / ((stats.mk 3 1 0 0).total : ℚ) ∧
      100 * ((stats.mk 3 1 0 0).dirty : ℚ) / ((stats.mk 3 1 0 0).total : ℚ)
        < (stats.mk 3 1 0 0).Dirtyness + 1 / 10) :=
  ⟨by decide, dirtyness_percentage_one_decimal ⟨3, 1, 0, 0⟩ (by decide)⟩

/-- C10: every counting operation of `stats` increments `total` by
exactly one, so `total > 0` after at least one processed file; for
`total = 0` the Go `Dirtyness` divides by zero and panics instead of
returning a value, embedded as the `none` branch of `DirtynessOpt`;
with `total > 0` a value is returned. -/
theorem dirtyness_total_guard :
    (∀ s : stats, s.Duplicate.total = s.total + 1) ∧
    (∀ s : stats, s.Link.total = s.total + 1) ∧
    (∀ (s : stats) (b : Bool), (s.Dirty b).total = s.total + 1) ∧
    (∀ s : stats, s.total = 0 → s.DirtynessOpt = none) ∧
    (∀ s : stats, 0 < s.total → s.DirtynessOpt.isSome = true) := by
  refine ⟨fun s => rfl, fun s => rfl, fun s b => rfl, ?_, ?_⟩
  · intro s h
    simp [stats.DirtynessOpt, h]
  · intro s h
    simp [stats.DirtynessOpt, Nat.pos_iff_ne_zero.mp h]

theorem dirtyness_total_guard_witness :
    (stats.mk 0 0 0 0).total = 0 ∧ (stats.mk 0 0 0 0).DirtynessOpt = none ∧
    0 < (stats.mk 1 1 0 0).total ∧ (stats.mk 1 1 0 0).DirtynessOpt.isSome = true :=
  ⟨rfl, dirtyness_total_guard.2.2.2.1 ⟨0, 0, 0, 0⟩ rfl, by decide,
    dirtyness_total_guard.2.2.2.2 ⟨1, 1, 0, 0⟩ (by decide)⟩

/-- C7: a missing catalog file, a failing deserialization or a failing
per-object content check all make `queryBlueprint` (and hence a fresh
`HasBlueprint` query) return `false` — the function's type is a plain
boolean, no error is surfaced — and `true` is returned only when the
catalog file exists, loads and passes its content check. -/
theorem hasblueprint_swallows_load_errors :
    (∀ e : QueryEnv,
        e.catalogIsFile = false ∨ e.loadOk = false ∨ e.checkOk = false →
        queryBlueprint e = false) ∧
    (∀ e : QueryEnv, queryBlueprint e = true →
        e.catalogIsFile = true ∧ e.loadOk = true ∧ e.checkOk = true) ∧
    (∀ (hash : List Nat → String) (disk : String → QueryEnv) (bp : List Nat),
        (HasBlueprint hash disk [] bp).1 = queryBlueprint (disk (hash bp))) := by
  refine ⟨?_, ?_, ?_⟩
  · intro e h
    obtain ⟨a, b, c, d⟩ := e
    cases a <;> cases b <;> cases c <;> cases d <;> simp_all [queryBlueprint]
  · intro e h
    obtain ⟨a, b, c, d⟩ := e
    cases a <;> cases b <;> cases c <;> cases d <;> simp_all [queryBlueprint]
  · intro hash disk bp
    rfl

theorem hasblueprint_swallows_load_errors_witness :
    queryBlueprint ⟨false, true, true, true⟩ = false ∧
    ((QueryEnv.mk true true true true).catalogIsFile = true ∧
      (QueryEnv.mk true true true true).loadOk = true ∧
      (QueryEnv.mk true true true true).checkOk = true) ∧
    (HasBlueprint (fun _ => "key") (fun _ => ⟨true, true, true, true⟩) [] []).1
      = queryBlueprint ((fun _ : String => QueryEnv.mk true true true true) "key") :=
  ⟨hasblueprint_swallows_load_errors.1 ⟨false, true, true, true⟩ (Or.inl rfl),
    hasblueprint_swallows_load_errors.2.1 ⟨true, true, true, true⟩ rfl,
    hasblueprint_swallows_load_errors.2.2 (fun _ => "key")
      (fun _ => ⟨true, true, true, true⟩) []⟩

/-- C9: within one `Library` instance, `HasBlueprint` memoizes per
blueprint key: after a first call, a second call with a blueprint
hashing to the same key returns the cached boolean and leaves the
cache unchanged, for an arbitrary (possibly changed by `Record` or
`Remove` in between) filesystem snapshot `disk2`. -/
theorem hasblueprint_memoizes_per_key
    (hash : List Nat → String) (disk1 disk2 : String → QueryEnv)
    (cache : List (String × Bool)) (bp1 bp2 : List Nat)
    (hkey : hash bp1 = hash bp2) :
    (HasBlueprint hash disk2 (HasBlueprint hash disk1 cache bp1).2 bp2).1
      = (HasBlueprint hash disk1 cache bp1).1 ∧
    (HasBlueprint hash disk2 (HasBlueprint hash disk1 cache bp1).2 bp2).2
      = (HasBlueprint hash disk1 cache bp1).2 := by
  unfold HasBlueprint
  rw [← hkey]
  cases h : lookupCache cache (hash bp1) with
  | some b => simp [h]
  | none => simp [h, lookupCache]

theorem hasblueprint_memoizes_per_key_witness :
    (HasBlueprint (fun _ => "key") (fun _ => ⟨false, false, false, false⟩)
        (HasBlueprint (fun _ => "key") (fun _ => ⟨true, true, true, true⟩) [] [0]).2 [1]).1
      = (HasBlueprint (fun _ => "key") (fun _ => ⟨true, true, true, true⟩) [] [0]).1 ∧
    (HasBlueprint (fun _ => "key") (fun _ => ⟨false, false, false, false⟩)
        (HasBlueprint (fun _ => "key") (fun _ => ⟨true, true, true, true⟩) [] [0]).2 [1]).2
      = (HasBlueprint (fun _ => "key") (fun _ => ⟨true, true, true, true⟩) [] [0]).2 :=
  hasblueprint_memoizes_per_key (fun _ => "key") (fun _ => ⟨true, true, true, true⟩)
    (fun _ => ⟨false, false, false, false⟩) [] [0] [1] rfl

/-- C8: when the stage root is created but the blueprint's catalog
fails to load, `TargetDir` returns the path
`HolotreeLocation()/ControllerSpaceName(controller, space)` with a nil
error; an error is returned only when creating the stage root fails. -/
theorem targetdir_tolerates_missing_catalog :
    (∀ (env : TargetEnv) (uh : String) (ts : List Nat → Nat → String)
        (client tag : List Nat),
        env.stageRootOk = true → env.loadOk = false →
        TargetDir env (ControllerSpaceName uh ts client tag)
          = .ok (pathJoin env.holotreeLocation (ControllerSpaceName uh ts client tag))) ∧
    (∀ (env : TargetEnv) (name e : String),
        TargetDir env name = .error e → env.stageRootOk = false) := by
  constructor
  · intro env uh ts client tag hs hl
    simp [TargetDir, hs, hl]
  · intro env name e h
    by_cases hs : env.stageRootOk = true
    · by_cases hl : env.loadOk = true <;> simp [TargetDir, hs, hl] at h
    · simpa using hs

theorem targetdir_tolerates_missing_catalog_witness :
    (TargetEnv.mk true false "/ht" "/base").stageRootOk = true ∧
    (TargetEnv.mk true false "/ht" "/base").loadOk = false ∧
    TargetDir ⟨true, false, "/ht", "/base"⟩
        (ControllerSpaceName "id" (fun _ n => toString n) [] [])
      = .ok (pathJoin "/ht" (ControllerSpaceName "id" (fun _ n => toString n) [] [])) :=
  ⟨rfl, rfl,
    targetdir_tolerates_missing_catalog.1 ⟨true, false, "/ht", "/base"⟩ "id"
      (fun _ n => toString n) [] [] rfl rfl⟩

/-- C5: `RestoreTo` classifies its operating mode into exactly the
three cases of `modeFor`: new space when the target's meta-catalog is
absent or fails to load, cleaned-up space when the loaded meta's
blueprint key equals the requested key, and — keys differing — the
string the code actually emits, which misspells "converted" as
"coverted"; the same-blueprint case does report "cleaned up space". -/
theorem restore_mode_classification :
    modeFor none "b" = "new space for \"b\"" ∧
    modeFor (some "b") "b" = "cleaned up space for \"b\"" ∧
    modeFor (some "a") "b" = "coverted space from \"a\" to \"b\"" := by
  refine ⟨rfl, by decide, by decide⟩

/-- C1: for an export of catalog set `toExport` with known set `known`
into an archive, an object path referenced by a (loadable) known
catalog is absent from the archive; an object path referenced by some
to-export catalog and referenced by no known catalog (and distinct
from every catalog file's own archive path, which in the real layout
lives under `catalog/` while objects live under `library/`) is written
exactly once; and the zip writer's `Add` returns without writing for
any path already seen. -/
theorem export_dedup_exactly_once :
    (∀ (toExport known : List Catalog) (entries : List String) (o : String),
        Export toExport known = .ok entries →
        (∃ k ∈ known, k.loadable = true ∧ o ∈ k.refs) →
        o ∉ entries) ∧
    (∀ (toExport known : List Catalog) (entries : List String) (o : String),
        Export toExport known = .ok entries →
        (∃ c ∈ toExport, o ∈ c.refs) →
        (∀ k ∈ known, o ∉ k.refs) →
        (∀ c ∈ toExport, o ≠ catalogRelative c) →
        entries.count o = 1) ∧
    (∀ (z : zipseen) (p : String), p ∈ z.seen → z.Add p = z) := by
  refine ⟨?_, ?_, ?_⟩
  · intro toExport known entries o hok hknown
    obtain ⟨z, hloop, hent⟩ := Export_ok_inv toExport known entries hok
    have habs : AbsentIn (exportKnown ⟨[], []⟩ known) o := by
      constructor
      · exact (mem_exportKnown_seen known ⟨[], []⟩ o).mpr (Or.inl hknown)
      · rw [exportKnown_entries]
        simp
    have habs2 : AbsentIn z o :=
      exportLoop_ok_preserves (fun w => AbsentIn w o) (fun w q hh => absent_Add hh q)
        toExport _ _ _ _ hloop habs
    rw [hent]
    exact habs2.2
  · intro toExport known entries o hok hto hnk hnc
    obtain ⟨z, hloop, hent⟩ := Export_ok_inv toExport known entries hok
    have hfresh : FreshIn (exportKnown ⟨[], []⟩ known) o := by
      constructor
      · intro hmem
        rcases (mem_exportKnown_seen known ⟨[], []⟩ o).mp hmem with ⟨k, hk, _, hr⟩ | hz
        · exact hnk k hk hr
        · simp at hz
      · rw [exportKnown_entries]
        simp
    have hdone : DoneIn z o :=
      exportLoop_ok_done toExport _ _ _ _ o hloop hfresh hto hnc
    rw [hent]
    exact hdone.2
  · intro z p h
    unfold zipseen.Add
    rw [if_pos h]

theorem export_dedup_exactly_once_witness :
    Export [⟨"k2", true, ["library/o2", "library/o4"]⟩]
        [⟨"k1", true, ["library/o2"]⟩]
      = .ok ["library/o4", "catalog/k2"] ∧
    ("library/o2" : String) ∉ (["library/o4", "catalog/k2"] : List String) ∧
    (["library/o4", "catalog/k2"] : List String).count "library/o4" = 1 :=
  ⟨rfl,
    export_dedup_exactly_once.1 [⟨"k2", true, ["library/o2", "library/o4"]⟩]
      [⟨"k1", true, ["library/o2"]⟩] ["library/o4", "catalog/k2"] "library/o2"
      rfl
      ⟨⟨"k1", true, ["library/o2"]⟩, by decide, rfl, by decide⟩,
    export_dedup_exactly_once.2.1 [⟨"k2", true, ["library/o2", "library/o4"]⟩]
      [⟨"k1", true, ["library/o2"]⟩] ["library/o4", "catalog/k2"] "library/o4"
      rfl
      ⟨⟨"k2", true, ["library/o2", "library/o4"]⟩, by decide, by decide⟩
      (by decide) (by decide)⟩

/-- C4 (amended): a known catalog that fails to load is skipped without
failing the export (filtering unloadable knowns does not change the
result, and an export of loadable catalogs succeeds whatever the known
list); a to-export catalog that fails to load makes `Export` return a
load error; the nothing-to-export error is produced exactly when the
to-export list is empty — with a nonempty list of only unloadable
catalogs the load error of the first one fires instead, so the
nothing-to-export error is never raised for a nonempty list. -/
theorem export_error_handling :
    (∀ (toExport known : List Catalog),
        Export toExport known = Export toExport (known.filter fun c => c.loadable)) ∧
    (∀ (toExport known : List Catalog),
        toExport ≠ [] → (∀ c ∈ toExport, c.loadable = true) →
        ∃ es, Export toExport known = .ok es) ∧
    (∀ (toExport known : List Catalog) (c : Catalog),
        c ∈ toExport → c.loadable = false →
        ∃ n, Export toExport known = .error (.loadFailure n)) ∧
    (∀ known : List Catalog, Export [] known = .error .nothingToExport) ∧
    (∀ (toExport known : List Catalog),
        toExport ≠ [] → Export toExport known ≠ .error .nothingToExport) := by
  refine ⟨?_, ?_, ?_, ?_, ?_⟩
  · intro toExport known
    unfold Export
    rw [exportKnown_filter]
  · intro toExport known hne hall
    cases toExport with
    | nil => exact absurd rfl hne
    | cons c rest =>
      have hc : c.loadable = true := hall c (List.mem_cons_self _ _)
      rcases exportLoop_ok_of_all rest
          ((ZipRoot (exportKnown ⟨[], []⟩ known) c).Add (catalogRelative c)) true
          (fun d hd => hall d (List.mem_cons_of_mem _ hd)) with ⟨⟨z, b⟩, hout⟩
      have hb : b = true := exportLoop_true _ _ _ _ hout
      subst hb
      refine ⟨z.entries, ?_⟩
      unfold Export
      simp only [exportLoop]
      rw [if_pos hc, hout]
      simp
  · intro toExport known c hc hl
    rcases exportLoop_error_of_exists toExport (exportKnown ⟨[], []⟩ known) false
        ⟨c, hc, hl⟩ with ⟨n, hn⟩
    refine ⟨n, ?_⟩
    unfold Export
    rw [hn]
  · intro known
    rfl
  · intro toExport known hne h
    unfold Export at h
    cases he : exportLoop (exportKnown ⟨[], []⟩ known) false toExport with
    | error e =>
      rw [he] at h
      simp at h
      rw [h] at he
      exact exportLoop_never_nothing toExport _ _ he
    | ok pair =>
      obtain ⟨z, b⟩ := pair
      rw [he] at h
      cases b with
      | true => simp at h
      | false =>
        cases toExport with
        | nil => exact hne rfl
        | cons c rest =>
          simp only [exportLoop] at he
          by_cases hc : c.loadable = true
          · rw [if_pos hc] at he
            have := exportLoop_true _ _ _ _ he
            cases this
          · rw [if_neg hc] at he
            cases he

theorem export_nothing_to_export_cex :
    (∀ c ∈ [Catalog.mk "bad" false []], c.loadable = false) ∧
    Export [Catalog.mk "bad" false []] [] = .error (.loadFailure "bad") ∧
    ExportError.loadFailure "bad" ≠ ExportError.nothingToExport :=
  ⟨by decide, rfl, by decide⟩

theorem export_error_handling_witness :
    ([Catalog.mk "good" true []] ≠ ([] : List Catalog)) ∧
    (∀ c ∈ [Catalog.mk "good" true []], c.loadable = true) ∧
    (∃ es, Export [Catalog.mk "good" true []]
        [Catalog.mk "bad" false [], Catalog.mk "k1" true ["library/o1"]] = .ok es) ∧
    Export ([] : List Catalog) [Catalog.mk "k1" true ["library/o1"]]
      = .error .nothingToExport :=
  ⟨by decide, by decide,
    export_error_handling.2.1 [Catalog.mk "good" true []]
      [Catalog.mk "bad" false [], Catalog.mk "k1" true ["library/o1"]]
      (by decide) (by decide),
    export_error_handling.2.2.2.1 [Catalog.mk "k1" true ["library/o1"]]⟩

/-- C2: the meta-catalog write (`SaveAs(metafile)`) is attempted only
after stage creation, catalog load, locking, relocation, `MakeBranches`
and all `RestoreDirectory` operations succeeded; when `MakeBranches`,
`RestoreDirectory` (or `Relocate`) fails, `RestoreTo` returns an error
and the meta file is not written, leaving any existing meta unchanged;
and in the trace, the meta write comes after the directory creation and
the per-file restore step. -/
theorem restore_meta_written_last :
    (∀ (env : RestoreEnv) (t : String),
        REvent.saveMeta ∈ (RestoreTo env t).2 →
        env.stageRootOk = true ∧ env.catalogLoadOk = true ∧ env.lockOk = true ∧
        env.relocateOk = true ∧ env.makeBranchesOk = true ∧ env.restoreDirsOk = true) ∧
    (∀ (env : RestoreEnv) (t : String),
        env.relocateOk = false ∨ env.makeBranchesOk = false ∨ env.restoreDirsOk = false →
        isError (RestoreTo env t).1 = true ∧ REvent.saveMeta ∉ (RestoreTo env t).2) ∧
    (∀ (env : RestoreEnv) (t : String),
        REvent.saveMeta ∈ (RestoreTo env t).2 →
        List.Sublist [REvent.makeBranches, REvent.restoreDirs, REvent.saveMeta]
          (RestoreTo env t).2) := by
  refine ⟨?_, ?_, ?_⟩
  · intro env t h
    obtain ⟨s, c, l, m, r, mb, rd, sm⟩ := env
    cases s <;> cases c <;> cases l <;> cases r <;> cases mb <;> cases rd <;>
      cases sm <;> cases m <;> simp_all [RestoreTo, restorePostLock]
  · intro env t h
    obtain ⟨s, c, l, m, r, mb, rd, sm⟩ := env
    cases s <;> cases c <;> cases l <;> cases r <;> cases mb <;> cases rd <;>
      cases sm <;> cases m <;> simp_all [RestoreTo, restorePostLock, isError]
  · intro env t h
    obtain ⟨s, c, l, m, r, mb, rd, sm⟩ := env
    cases s <;> cases c <;> cases l <;> cases r <;> cases mb <;> cases rd <;>
      cases sm <;> cases m <;> simp_all [RestoreTo, restorePostLock] <;> decide

theorem restore_meta_written_last_witness :
    ((RestoreEnv.mk true true true none true false true true).relocateOk = false ∨
      (RestoreEnv.mk true true true none true false true true).makeBranchesOk = false ∨
      (RestoreEnv.mk true true true none true false true true).restoreDirsOk = false) ∧
    isError (RestoreTo ⟨true, true, true, none, true, false, true, true⟩ "/tmp/t1").1
      = true ∧
    REvent.saveMeta ∉ (RestoreTo ⟨true, true, true, none, true, false, true, true⟩ "/tmp/t1").2 :=
  ⟨Or.inr (Or.inl rfl),
    (restore_meta_written_last.2.1 ⟨true, true, true, none, true, false, true, true⟩
      "/tmp/t1" (Or.inr (Or.inl rfl))).1,
    (restore_meta_written_last.2.1 ⟨true, true, true, none, true, false, true, true⟩
      "/tmp/t1" (Or.inr (Or.inl rfl))).2⟩

/-- C3: every lock acquisition in a `RestoreTo` trace uses the literal
30000 ms timeout; when stage and catalog load succeed but the lock is
not obtained in time, `RestoreTo` fails with the lock error and its
trace holds nothing but the lock attempt (no file operation on the
target was performed); and whenever the trace is nonempty it starts
with the lock attempt, so the lock precedes every operation on the
target (mutual exclusion itself is supplied by the external
`pathlib.Locker` primitive). -/
theorem restore_lock_timeout_guard :
    (∀ (env : RestoreEnv) (t : String) (x : Nat),
        REvent.lockAttempt x ∈ (RestoreTo env t).2 → x = 30000) ∧
    (∀ (env : RestoreEnv) (t : String),
        env.stageRootOk = true → env.catalogLoadOk = true → env.lockOk = false →
        (RestoreTo env t).1 = .error ("Could not get lock for " ++ t ++ ". Quiting.") ∧
        (RestoreTo env t).2 = [REvent.lockAttempt 30000]) ∧
    (∀ (env : RestoreEnv) (t : String),
        (RestoreTo env t).2 ≠ [] →
        (RestoreTo env t).2.head? = some (REvent.lockAttempt 30000)) := by
  refine ⟨?_, ?_, ?_⟩
  · intro env t x h
    obtain ⟨s, c, l, m, r, mb, rd, sm⟩ := env
    cases s <;> cases c <;> cases l <;> cases r <;> cases mb <;> cases rd <;>
      cases sm <;> cases m <;> simp_all [RestoreTo, restorePostLock]
  · intro env t hs hc hl
    obtain ⟨s, c, l, m, r, mb, rd, sm⟩ := env
    simp only at hs hc hl
    subst hs; subst hc; subst hl
    exact ⟨rfl, rfl⟩
  · intro env t h
    obtain ⟨s, c, l, m, r, mb, rd, sm⟩ := env
    cases s <;> cases c <;> cases l <;> cases r <;> cases mb <;> cases rd <;>
      cases sm <;> cases m <;> simp_all [RestoreTo, restorePostLock]

theorem restore_lock_timeout_guard_witness :
    (RestoreTo ⟨true, true, false, none, true, true, true, true⟩ "/tmp/t1").1
      = .error ("Could not get lock for " ++ "/tmp/t1" ++ ". Quiting.") ∧
    (RestoreTo ⟨true, true, false, none, true, true, true, true⟩ "/tmp/t1").2
      = [REvent.lockAttempt 30000] :=
  restore_lock_timeout_guard.2.1 ⟨true, true, false, none, true, true, true, true⟩
    "/tmp/t1" rfl rfl rfl

end Rcc
